import Mathlib

/-!
Verification development for the OldBant interpreter.

The C++ sources are shallowly embedded below:
* `Types`   — the type model (`src/includes/defs/types` part of the tree,
  `Types::Type` and its subclasses with their virtual `compare` methods);
* `TypeChecker` — `TypeChecker::compare` and the checker fragment relevant
  to `evalProgram` and `evalBranch` (`src/src/core/typeChecker/typeChecker.cpp`);
* `Interpreter` — `Interpreter::interpretProgram`'s function-binding loop,
  the function-call environment construction of `interpretApplication`, and
  the `doOperation` arithmetic dispatch (interpreter translation unit);
* `BuiltinImplementations` — the list built-ins (builtinImplementations.cpp),
  with `std::vector` cells placed in an explicit store so that mutation
  (in-place variants) versus copying (non-in-place variants) is observable;
* `Parser` — the `preprocessImports` fixed-point loop and `parseImport`
  (parser translation unit), with file reading + lexing (external
  collaborators per the specification) abstracted as a map from resolved
  path to token list, and the possibly non-terminating do/while loop given
  fuel.

C++ objects are modelled as trees; a mutation through a `shared_ptr` is
modelled by returning the updated tree.  `unsigned int` casts are modelled
as `% 2^32`.  Undefined behaviour of the C++ source (zero divisor of `%`,
`std::vector::insert` past the end, dereferencing an end iterator, casts to
the wrong value class) is modelled as an explicit `none` / `.ub` outcome,
distinct from the error path the program itself takes via `printError`.
-/

namespace Types

/-- `Types::DataTypes` enum. -/
inductive DataTypes where
  | INT | CHAR | STRING | BOOL | NULLVAL
  | LIST | TUPLE | FUNC | GEN | TYPECLASS | UNKNOWN
deriving DecidableEq, Repr

/-- The `Types::Type` class hierarchy.  Each constructor is one concrete
C++ class; the `tag` field is the mutable `dataType` member, which the
default constructors of `ListType`/`TupleType` and the tag-assignments in
the `compare` methods can set independently of the class.  `FuncType`'s
`functionBody` and `functionInnerEnvironment` members are omitted: no
`compare` method reads them (the UNKNOWN-to-FUNC branch only forwards
them), and no claim below depends on them. -/
inductive Ty where
  /-- `IntType`, `CharType`, `StringType`, `BoolType`, `NullType`,
  `UnknownType`: classes with no children and no `compare` override. -/
  | prim (tag : DataTypes)
  /-- `ListType` with its `listType` member (no member for the default
  constructor's `nullptr`, which no reachable code produces). -/
  | list (tag : DataTypes) (elem : Ty)
  /-- `TupleType` with its `tupleTypes` member. -/
  | tuple (tag : DataTypes) (elems : List Ty)
  /-- `FuncType`: generic parameter identifiers, argument types, return
  type, `isBuiltin`. -/
  | func (tag : DataTypes) (gens : List String) (args : List Ty)
      (ret : Ty) (isBuiltin : Bool)
  /-- `GenType` with its `identifier`; it has NO `compare` override. -/
  | gen (tag : DataTypes) (ident : String)
  /-- `TypeclassType` with `ident` and `fieldTypes`. -/
  | tclass (tag : DataTypes) (ident : String) (fields : List (String × Ty))

/-- The `dataType` member. -/
def Ty.tag : Ty → DataTypes
  | .prim t => t
  | .list t _ => t
  | .tuple t _ => t
  | .func t _ _ _ _ => t
  | .gen t _ => t
  | .tclass t _ _ => t

/-- Assignment `otherType->dataType = dataType` (mutates only the tag). -/
def Ty.settag : Ty → DataTypes → Ty
  | .prim _, t => .prim t
  | .list _ e, t => .list t e
  | .tuple _ es, t => .tuple t es
  | .func _ g a r b, t => .func t g a r b
  | .gen _ i, t => .gen t i
  | .tclass _ i f, t => .tclass t i f

/-- Convenience constructors matching the C++ class constructors. -/
def intT : Ty := .prim .INT
def charT : Ty := .prim .CHAR
def stringT : Ty := .prim .STRING
def boolT : Ty := .prim .BOOL
def nullT : Ty := .prim .NULLVAL
def unknownT : Ty := .prim .UNKNOWN
def listT (elem : Ty) : Ty := .list .LIST elem
def genT (ident : String) : Ty := .gen .GEN ident

/-- The virtual base `Types::Type::compare` (used by `IntType`, `CharType`,
`StringType`, `BoolType`, `NullType`, `UnknownType` and `GenType`, none of
which override it).  Result: (return value, `this` after the call, `other`
after the call).  The `otherType == nullptr` branch is dropped: no caller
in the embedding passes a null pointer. -/
def baseCompare (self other : Ty) : Bool × Ty × Ty :=
  if other.tag = .UNKNOWN then (true, self, other.settag self.tag)
  else (self.tag = other.tag, self, other)

mutual

/-- Virtual dispatch of `compare` on the class of `this`, with each
override translated branch-for-branch; returns
(result, `this` after, `other` after). -/
def Ty.compare : Ty → Ty → Bool × Ty × Ty
  | .prim t, other => baseCompare (.prim t) other
  | .gen t i, other => baseCompare (.gen t i) other
  | .list t e, other =>
    -- ListType::compare
    if other.tag = .UNKNOWN then
      (true, .list t e, other.settag t)
    else if t = .UNKNOWN ∧ other.tag = .LIST then
      match other with
      | .list t' e' => (true, .list .LIST e', .list t' e')
      | _ => (false, .list t e, other)  -- bad static cast: unreachable for class-consistent inputs
    else if t = other.tag ∧ e.tag = .UNKNOWN then
      match other with
      | .list t' e' => (true, .list t e', .list t' e')
      | _ => (false, .list t e, other)  -- bad static cast: unreachable for class-consistent inputs
    else if t = other.tag then
      match other with
      | .list t' e' =>
        let (r, e₂, e₂') := Ty.compare e e'
        (r, .list t e₂, .list t' e₂')
      | _ => (false, .list t e, other)  -- bad static cast: unreachable for class-consistent inputs
    else (false, .list t e, other)
  | .tuple t es, other =>
    -- TupleType::compare
    if t = .UNKNOWN ∧ other.tag = .TUPLE then
      match other with
      | .tuple t' es' => (true, .tuple .TUPLE es', .tuple t' es')
      | _ => (false, .tuple t es, other)  -- bad static cast: unreachable for class-consistent inputs
    else if t ≠ other.tag then (false, .tuple t es, other)
    else
      match other with
      | .tuple t' es' =>
        if es.length ≠ es'.length then (false, .tuple t es, .tuple t' es')
        else
          let (r, es₂, es₂') := tupleElemsCompare es es'
          (r, .tuple t es₂, .tuple t' es₂')
      | _ => (false, .tuple t es, other)  -- bad static cast: unreachable for class-consistent inputs
  | .func t g a r b, other =>
    -- FuncType::compare
    if t = .UNKNOWN ∧ other.tag = .FUNC then
      match other with
      | .func t' g' a' r' b' => (true, .func .FUNC g' a' r' b, .func t' g' a' r' b')
      | _ => (true, .func t g a r b, other)  -- bad static cast: unreachable for class-consistent inputs
    else if t = .FUNC ∧ other.tag = .FUNC then
      match other with
      | .func t' g' a' r' b' =>
        if a.length ≠ a'.length then (false, .func t g a r b, .func t' g' a' r' b')
        else
          let (ra, a₂, a₂') := funcArgsCompare a a'
          if ¬ ra then (ra, .func t g a₂ r b, .func t' g' a₂' r' b')
          else
            let (rr, r₂, r₂') := Ty.compare r r'
            if ¬ rr then (false, .func t g a₂ r₂ b, .func t' g' a₂' r₂' b')
            else (true, .func t g a₂ r₂ b, .func t' g' a₂' r₂' b')
      | _ => (true, .func t g a r b, other)  -- bad static cast: unreachable for class-consistent inputs
    else (true, .func t g a r b, other)     -- the final `return true` of FuncType::compare
  | .tclass t i f, other =>
    -- TypeclassType::compare
    match other with
    | .tclass t' i' f' => (t = t' ∧ i = i', .tclass t i f, .tclass t' i' f')
    | _ => (t = other.tag, .tclass t i f, other)
      -- static cast of a non-TypeclassType: the `ident` read is garbage;
      -- with distinct tags the && short-circuits, so the result is false
      -- exactly when tags differ, and the garbage comparison is modelled
      -- as reachable only when `t = other.tag` never holds for non-tclass
      -- inputs of consistent class.

/-- The element loop of `TupleType::compare` (skips UNKNOWN-tagged own
elements, copying the other side's element in their place). -/
def tupleElemsCompare : List Ty → List Ty → Bool × List Ty × List Ty
  | [], es' => (true, [], es')
  | es, [] => (true, es, [])
  | e :: es, e' :: es' =>
    if e.tag = .UNKNOWN then
      let (r, es₂, es₂') := tupleElemsCompare es es'
      (r, e' :: es₂, e' :: es₂')
    else
      let (r, e₂, e₂') := Ty.compare e e'
      if ¬ r then (false, e₂ :: es, e₂' :: es')
      else
        let (rs, es₂, es₂') := tupleElemsCompare es es'
        (rs, e₂ :: es₂, e₂' :: es₂')

/-- The argument loop of `FuncType::compare`. -/
def funcArgsCompare : List Ty → List Ty → Bool × List Ty × List Ty
  | [], as' => (true, [], as')
  | as, [] => (true, as, [])
  | a :: as, a' :: as' =>
    let (r, a₂, a₂') := Ty.compare a a'
    if ¬ r then (false, a₂ :: as, a₂' :: as')
    else
      let (rs, as₂, as₂') := funcArgsCompare as as'
      (rs, a₂ :: as₂, a₂' :: as₂')

end

/-- First component of `compare`: the C++ return value. -/
def Ty.compareB (self other : Ty) : Bool := (Ty.compare self other).1

mutual

/-- A type is concrete when its class and tag agree, and it contains no
`UNKNOWN` hole: exactly the types "built from Int, Char, String, Bool,
Null, List, Tuple, Func, Generic, Typeclass" by the pipeline.  (Typeclass
field types are never inspected by `compare` and are not constrained.) -/
def concrete : Ty → Bool
  | .prim t => t = .INT ∨ t = .CHAR ∨ t = .STRING ∨ t = .BOOL ∨ t = .NULLVAL
  | .list t e => t = .LIST && concrete e
  | .tuple t es => t = .TUPLE && concreteList es
  | .func t _ as r _ => t = .FUNC && concreteList as && concrete r
  | .gen t _ => t = .GEN
  | .tclass t _ _ => t = .TYPECLASS

def concreteList : List Ty → Bool
  | [] => true
  | t :: ts => concrete t && concreteList ts

end

end Types

namespace TypeChecker

/-- `TypeChecker::compare`, the unification primitive.  The references
`leftType` / `rightType` can be rebound by assignment; the result carries
(return value, left after, right after). -/
def compare (leftType rightType : Types.Ty) : Bool × Types.Ty × Types.Ty :=
  if leftType.tag = .UNKNOWN then (true, rightType, rightType)
  else if rightType.tag = .UNKNOWN then (true, leftType, leftType)
  else
    let (r, l', r') := Types.Ty.compare leftType rightType
    (r, l', r')

end TypeChecker

namespace Expressions

/-- Literal payload (`Expressions::Literal`'s variant member).  C++ `char`
is a byte, modelled as `Nat`; `std::string` as its character sequence. -/
inductive LitData where
  | intL (i : Int)
  | charL (c : Nat)
  | strL (s : List Nat)
  | boolL (b : Bool)
  | nullL

/-- The expression fragment of the AST needed by the claims: literals and
branches carry their mutable `returnType` slot; `endE` is the `End`
terminator.  Function bodies referenced by `Function` / `FunctionValue`
are arbitrary expressions of this fragment. -/
inductive Expr where
  | lit (rty : Types.Ty) (d : LitData)
  | branch (rty : Types.Ty) (condition ifBranch elseBranch : Expr)
  | endE (rty : Types.Ty)

/-- The `returnType` slot of a node. -/
def Expr.rty : Expr → Types.Ty
  | .lit t _ => t
  | .branch t _ _ _ => t
  | .endE t => t

/-- `Expressions::Function` (a function declaration of a `Program`): name,
generic parameter identifiers (the `GenType` list), parameters as
(name, declared type) pairs, body, and the declaration's `FuncType`. -/
structure FunctionDef where
  name : String
  genericParameters : List String
  parameters : List (String × Types.Ty)
  functionBody : Expr
  returnType : Types.Ty

end Expressions

namespace Values

/-- `Values::Value` and its subclasses.  Every C++ value carries a type
pointer; for primitive values the builtins always construct the canonical
type, so only the variants whose type is read by the claims' code paths
(`ListValue`, `FunctionValue`, `TupleValue`) carry it here.  List data
lives in an explicit store (`Store`) so that mutation of a shared
`std::vector` is observable: `listV` holds the index of its cell. -/
inductive Value where
  | intV (data : Int)
  | charV (data : Nat)
  | strV (data : List Nat)
  | boolV (data : Bool)
  | nullV
  /-- `ListValue`: the element type of its `ListType` and the store cell
  holding `listData`. -/
  | listV (elemTy : Types.Ty) (ref : Nat)
  /-- `TupleValue` with its `TupleType`'s element types and `tupleData`. -/
  | tupleV (tys : List Types.Ty) (data : List Value)
  /-- `FunctionValue`: type, `parameterNames`, `functionBody`,
  `functionBodyEnvironment`, `isBuiltin`. -/
  | funcV (ty : Types.Ty) (parameterNames : List String)
      (functionBody : Expressions.Expr)
      (functionBodyEnvironment : List (String × Value))
      (isBuiltin : Bool)

/-- `Values::Environment`: a `std::map<std::string, ValuePtr>`, modelled as
an association list with unique keys maintained by `addName`. -/
abbrev Environment := List (String × Value)

/-- The heap of `std::vector<ValuePtr>` cells backing `ListValue`s. -/
abbrev Store := List (List Value)

/-- Read a list cell (`listValue->listData`). -/
def Store.dataOf (st : Store) (ref : Nat) : List Value :=
  (List.getD st ref [])

/-- Overwrite a list cell in place. -/
def Store.setData (st : Store) (ref : Nat) (d : List Value) : Store :=
  List.set st ref d

/-- Allocate a fresh cell (a `make_shared<ListValue>`). -/
def Store.alloc (st : Store) (d : List Value) : Store × Nat :=
  (st ++ [d], st.length)

/-- The runtime type of a value (`value->type`); canonical for primitive
variants, stored for composite ones. -/
def Value.ty : Value → Types.Ty
  | .intV _ => Types.intT
  | .charV _ => Types.charT
  | .strV _ => Types.stringT
  | .boolV _ => Types.boolT
  | .nullV => Types.nullT
  | .listV elemTy _ => .list .LIST elemTy
  | .tupleV tys _ => .tuple .TUPLE tys
  | .funcV t _ _ _ _ => t

end Values

namespace Interpreter

open Values Expressions

/-- `Interpreter::addName`: erase any existing binding, insert the new
one. -/
def addName (environment : Environment) (name : String) (value : Value) :
    Environment :=
  (name, value) :: (environment.filter (fun p => p.1 ≠ name))

/-- `std::map::erase(name)`. -/
def eraseName (environment : Environment) (name : String) : Environment :=
  environment.filter (fun p => p.1 ≠ name)

/-- `Interpreter::getName` without the error path (`std::map::find`):
`none` when the name is absent (where the C++ prints an error and returns
the null sentinel). -/
def getName? : Environment → String → Option Value
  | [], _ => none
  | (k, v) :: rest, name => if k = name then some v else getName? rest name

/-- The body of `Interpreter::interpretProgram`'s loop for one declared
function: build the `FunctionValue` (empty captured environment, then for
non-builtins a copy of the program environment with the function's own
name erased) and bind it.  `isBuiltinName` abstracts
`BuiltinDefinitions::isBuiltin` (its table lives outside the embedded
sources). -/
def makeFunctionValue (isBuiltinName : String → Bool)
    (programEnvironment : Environment) (function : FunctionDef) : Value :=
  if isBuiltinName function.name then
    .funcV function.returnType (function.parameters.map (fun p => p.1))
      function.functionBody [] true
  else
    .funcV function.returnType (function.parameters.map (fun p => p.1))
      function.functionBody (eraseName programEnvironment function.name) false

/-- One iteration of the `interpretProgram` loop. -/
def bindFunction (isBuiltinName : String → Bool)
    (programEnvironment : Environment) (function : FunctionDef) :
    Environment :=
  addName programEnvironment function.name
    (makeFunctionValue isBuiltinName programEnvironment function)

/-- The whole function-binding loop of `interpretProgram`. -/
def bindFunctions (isBuiltinName : String → Bool)
    (environment : Environment) (functions : List FunctionDef) :
    Environment :=
  functions.foldl (bindFunction isBuiltinName) environment

/-- `functionBodyEnvironment` of a value (empty for non-functions). -/
def capturedEnv : Value → Environment
  | .funcV _ _ _ e _ => e
  | _ => []

/-- The function-call environment built by `Interpreter::interpretApplication`
for a `FunctionValue` callee: start from a copy of the caller's
environment, bind each parameter name to its evaluated argument, then
overlay every non-builtin-named binding of the captured environment. -/
def buildFunctionEnvironment (isBuiltinName : String → Bool)
    (environment : Environment) (parameterNames : List String)
    (argumentValues : List Value)
    (functionBodyEnvironment : Environment) : Environment :=
  let withArgs :=
    (List.zip parameterNames argumentValues).foldl
      (fun env p => addName env p.1 p.2) environment
  functionBodyEnvironment.foldl
    (fun env p => if isBuiltinName p.1 then env else addName env p.1 p.2)
    withArgs

/-- `Operator::OperatorTypes` (subset appearing in `doOperation`). -/
inductive OperatorTypes where
  | PLUS | MINUS | TIMES | DIV | MOD
  | GRT | LST | NOT | EQ | NOTEQ | GRTEQ | LSTEQ | AND | OR
deriving DecidableEq, Repr

/-- Outcome of `doOperation`. -/
inductive PrimOut where
  | val (v : Values.Value)
  /-- `printError` + thrown `RuntimeException`: the fatal runtime error
  with stack trace. -/
  | fatal
  /-- C++ undefined behaviour: `%` or `/` evaluated where the standard
  gives no semantics (zero divisor for `%`, `INT_MIN / -1`), or a
  `static_pointer_cast` to the wrong value class.  No error message, no
  stack trace, no value. -/
  | ub

/-- `Interpreter::doOperation<Values::IntValue>` — the instantiation the
interpreter dispatches to for `Int` operands.  The arithmetic branches
cast both sides to `IntValue` unconditionally; C++ `int` division
truncates towards zero (`Int.tdiv` / `Int.tmod`).  The `DIV` branch guards a
zero divisor with `printError` and returns the error null value; the `MOD`
branch has no such guard, so a zero divisor reaches the C++ `%` operator,
which is undefined behaviour.  `AND`/`OR` cast to `BoolValue`, undefined
on `IntValue` operands. -/
def doOperationInt (op : OperatorTypes) (leftSide rightSide : Int) :
    PrimOut :=
  match op with
  | .PLUS => .val (.intV (leftSide + rightSide))
  | .MINUS => .val (.intV (leftSide - rightSide))
  | .TIMES => .val (.intV (leftSide * rightSide))
  | .DIV =>
    if rightSide = 0 then .fatal
    else if leftSide = -2147483648 ∧ rightSide = -1 then .ub
    else .val (.intV (Int.tdiv leftSide rightSide))
  | .MOD =>
    if rightSide = 0 then .ub
    else if leftSide = -2147483648 ∧ rightSide = -1 then .ub
    else .val (.intV (Int.tmod leftSide rightSide))
  | .GRT => .val (.boolV (rightSide < leftSide))
  | .LST => .val (.boolV (leftSide < rightSide))
  | .NOT => .val (.boolV (leftSide = rightSide))
  | .EQ => .val (.boolV (leftSide = rightSide))
  | .NOTEQ => .val (.boolV (leftSide ≠ rightSide))
  | .GRTEQ => .val (.boolV (rightSide ≤ leftSide))
  | .LSTEQ => .val (.boolV (leftSide ≤ rightSide))
  | .AND => .ub
  | .OR => .ub

end Interpreter

namespace TypeChecker

open Types Expressions

/-- Type environment (`EnvironmentRaw = std::map<std::string, TypePtr>`). -/
abbrev TEnv := List (String × Ty)

/-- `TypeChecker::addName`. -/
def addName (environment : TEnv) (name : String) (ty : Ty) : TEnv :=
  (name, ty) :: (environment.filter (fun p => p.1 ≠ name))

/-- `std::map::find` returning the mapped type. -/
def findName? : TEnv → String → Option Ty
  | [], _ => none
  | (k, v) :: rest, name => if k = name then some v else findName? rest name

/-- The per-function body of `TypeChecker::evalProgram`'s second loop:
build the inner environment stored on the function's `FuncType`.  For a
non-builtin function it is a copy of the surrounding environment with the
function's own name erased; each generic parameter is added only when not
already present; each value parameter is bound to its declared type, a
generic-typed parameter to what the inner environment maps its identifier
to (`find(...)->second`, which dereferences the end iterator — undefined —
when the identifier is unbound: modelled as `none`). -/
def functionInnerEnv (isBuiltinName : String → Bool) (environment : TEnv)
    (function : FunctionDef) : Option TEnv :=
  let start : TEnv :=
    if isBuiltinName function.name then []
    else environment.filter (fun p => p.1 ≠ function.name)
  let withGenerics :=
    function.genericParameters.foldl
      (fun env g =>
        match findName? env g with
        | some _ => env
        | none => addName env g (Types.genT g))
      start
  bindParameters withGenerics function.parameters
where
  /-- The parameter loop. -/
  bindParameters : TEnv → List (String × Ty) → Option TEnv
    | env, [] => some env
    | env, (name, ty) :: rest =>
      match ty with
      | .gen _ ident =>
        -- `parameter->returnType->dataType == GEN` branch
        match findName? env ident with
        | none => none
        | some realType => bindParameters (addName env name realType) rest
      | _ => bindParameters (addName env name ty) rest

/-- Checker state threaded through `eval`: the error latch plus an
instrumentation trace recording, at each entry of `eval`, the node and the
expected type it is checked against.  The trace is not part of the C++
state; it only makes evaluation order observable. -/
structure TCState where
  err : Bool
  trace : List (Expr × Ty)

/-- `TypeChecker::eval` on the embedded expression fragment.  Returns the
C++ return value (an `ExpPtr`, i.e. the node after its `returnType`
mutations), the caller's `expectedType` reference after possible
reassignment by `compare`, and the updated state. -/
def eval : Expr → TEnv → Ty → TCState → Expr × Ty × TCState
  | .lit rty d, _environment, expectedType, s₀ =>
    -- TypeChecker::evalLiteral
    let s := { s₀ with trace := s₀.trace ++ [(.lit rty d, expectedType)] }
    let (ok, rty', expected') := compare rty expectedType
    let s' := if ok then s else { s with err := true }
    (.lit rty' d, expected', s')
  | .branch rty condition ifBranch elseBranch, environment, expectedType, s₀ =>
    -- TypeChecker::evalBranch
    let s := { s₀ with
      trace := s₀.trace ++ [(.branch rty condition ifBranch elseBranch, expectedType)] }
    let (_, _, s₁) := eval condition environment Types.boolT s
    let (elseExp, expected', s₂) := eval elseBranch environment expectedType s₁
    let elseType := elseExp.rty
    let (thenExp, _, s₃) := eval ifBranch environment elseType s₂
    (thenExp, expected', s₃)
  | .endE rty, _environment, expectedType, s₀ =>
    -- the END case of the eval dispatcher returns the expression unchanged
    let s := { s₀ with trace := s₀.trace ++ [(.endE rty, expectedType)] }
    (.endE rty, expectedType, s)

end TypeChecker

namespace BuiltinImplementations

open Values Types

/-- C++ conversion of a (32-bit) `int` to `unsigned int`:
`unsigned int index = intValue->data`. -/
def toU32 (i : Int) : Nat := (i % 4294967296).toNat

/-- `std::vector::insert(begin() + n, a)` for `n ≤ length` (past the end
it is undefined behaviour; callers return `none` there). -/
def vectorInsert (l : List Value) (n : Nat) (a : Value) : List Value :=
  l.take n ++ a :: l.drop n

/-- Propagate the type mutation `compare` performed on a value's type
object back into the value.  Primitive values' types are never mutated as
the `this` side of `compare` (the base method only mutates `other`). -/
def Value.withTy : Value → Ty → Value
  | .listV _ r, .list _ ety => .listV ety r
  | .tupleV _ d, .tuple _ tys => .tupleV tys d
  | v, _ => v

/-- `listType` member of a `ListType`, with the input's element type as
the (unreachable) fallback for a non-list argument. -/
def listElemOf (t : Ty) (fallback : Ty) : Ty :=
  match t with
  | .list _ e => e
  | _ => fallback

/-- Result of one builtin call: the store after the call, the
`BuiltinImplementations::error` latch raised by `printError`, and the
returned value (`nullValue` on the error path).  Mutations that `compare`
makes to the *argument* values' type objects are not propagated back to
the caller's bindings (no claim concerns them); the mutated element /
element type are used exactly where the C++ reads them afterwards. -/
structure Outcome where
  store : Store
  err : Bool
  ret : Value

/-- `BuiltinImplementations::insertBuiltin`.  `none` models the undefined
`vector::insert` past the end (empty input list with a non-zero index,
which the `!listData.empty() && index >= size` guard lets through). -/
def insertBuiltin (st : Store) (elemTy : Ty) (ref : Nat) (e : Value)
    (i : Int) : Option Outcome :=
  let listData := st.dataOf ref
  let (ok, eTy', elemTy') := Ty.compare e.ty elemTy
  if ¬ ok then some ⟨st, true, .nullV⟩
  else
    let index := toU32 i
    if (¬ listData.isEmpty) ∧ listData.length ≤ index then some ⟨st, true, .nullV⟩
    else if listData.length < index then none
    else
      let (st', ref') := st.alloc (vectorInsert listData index (Value.withTy e eTy'))
      some ⟨st', false, .listV elemTy' ref'⟩

/-- `BuiltinImplementations::removeBuiltin`. -/
def removeBuiltin (st : Store) (elemTy : Ty) (ref : Nat) (i : Int) :
    Outcome :=
  let listData := st.dataOf ref
  if listData.isEmpty then ⟨st, true, .nullV⟩
  else
    let index := toU32 i
    if listData.length ≤ index then ⟨st, true, .nullV⟩
    else
      let (st', ref') := st.alloc (listData.eraseIdx index)
      ⟨st', false, .listV elemTy ref'⟩

/-- `BuiltinImplementations::replaceBuiltin`. -/
def replaceBuiltin (st : Store) (elemTy : Ty) (ref : Nat) (e : Value)
    (i : Int) : Outcome :=
  let listData := st.dataOf ref
  if listData.isEmpty then ⟨st, true, .nullV⟩
  else
    let index := toU32 i
    if listData.length ≤ index then ⟨st, true, .nullV⟩
    else
      let (ok, eTy', elemTy') := Ty.compare e.ty elemTy
      if ¬ ok then ⟨st, true, .nullV⟩
      else
        let (st', ref') := st.alloc (listData.set index (Value.withTy e eTy'))
        ⟨st', false, .listV elemTy' ref'⟩

/-- `BuiltinImplementations::pushFrontBuiltin`. -/
def pushFrontBuiltin (st : Store) (elemTy : Ty) (ref : Nat) (e : Value) :
    Outcome :=
  let listData := st.dataOf ref
  let (ok, eTy', elemTy') := Ty.compare e.ty elemTy
  if ¬ ok then ⟨st, true, .nullV⟩
  else
    let (st', ref') := st.alloc (Value.withTy e eTy' :: listData)
    ⟨st', false, .listV elemTy' ref'⟩

/-- `BuiltinImplementations::pushBackBuiltin`. -/
def pushBackBuiltin (st : Store) (elemTy : Ty) (ref : Nat) (e : Value) :
    Outcome :=
  let listData := st.dataOf ref
  let (ok, eTy', elemTy') := Ty.compare e.ty elemTy
  if ¬ ok then ⟨st, true, .nullV⟩
  else
    let (st', ref') := st.alloc (listData ++ [Value.withTy e eTy'])
    ⟨st', false, .listV elemTy' ref'⟩

/-- `BuiltinImplementations::headBuiltin` (all but last). -/
def headBuiltin (st : Store) (elemTy : Ty) (ref : Nat) : Outcome :=
  let listData := st.dataOf ref
  if listData.isEmpty then ⟨st, true, .nullV⟩
  else
    let (st', ref') := st.alloc listData.dropLast
    ⟨st', false, .listV elemTy ref'⟩

/-- `BuiltinImplementations::tailBuiltin` (all but first). -/
def tailBuiltin (st : Store) (elemTy : Ty) (ref : Nat) : Outcome :=
  let listData := st.dataOf ref
  if listData.isEmpty then ⟨st, true, .nullV⟩
  else
    let (st', ref') := st.alloc listData.tail
    ⟨st', false, .listV elemTy ref'⟩

/-- `BuiltinImplementations::combineBuiltin`. -/
def combineBuiltin (st : Store) (elemTy₁ : Ty) (ref₁ : Nat) (elemTy₂ : Ty)
    (ref₂ : Nat) : Outcome :=
  let (ok, lTy₁', _) :=
    Ty.compare (.list .LIST elemTy₁) (.list .LIST elemTy₂)
  if ¬ ok then ⟨st, true, .nullV⟩
  else
    let combined := st.dataOf ref₁ ++ st.dataOf ref₂
    let (st', ref') := st.alloc combined
    ⟨st', false, .listV (listElemOf lTy₁' elemTy₁) ref'⟩

/-- `BuiltinImplementations::insertInPlaceBuiltin` — same checks as
`insertBuiltin`, but mutates the argument's cell and returns the argument
value itself. -/
def insertInPlaceBuiltin (st : Store) (elemTy : Ty) (ref : Nat) (e : Value)
    (i : Int) : Option Outcome :=
  let listData := st.dataOf ref
  let (ok, eTy', elemTy') := Ty.compare e.ty elemTy
  if ¬ ok then some ⟨st, true, .nullV⟩
  else
    let index := toU32 i
    if (¬ listData.isEmpty) ∧ listData.length ≤ index then some ⟨st, true, .nullV⟩
    else if listData.length < index then none
    else
      some ⟨st.setData ref (vectorInsert listData index (Value.withTy e eTy')),
            false, .listV elemTy' ref⟩

/-- `BuiltinImplementations::removeInPlaceBuiltin`. -/
def removeInPlaceBuiltin (st : Store) (elemTy : Ty) (ref : Nat) (i : Int) :
    Outcome :=
  let listData := st.dataOf ref
  if listData.isEmpty then ⟨st, true, .nullV⟩
  else
    let index := toU32 i
    if listData.length ≤ index then ⟨st, true, .nullV⟩
    else ⟨st.setData ref (listData.eraseIdx index), false, .listV elemTy ref⟩

/-- `BuiltinImplementations::replaceInPlaceBuiltin`. -/
def replaceInPlaceBuiltin (st : Store) (elemTy : Ty) (ref : Nat) (e : Value)
    (i : Int) : Outcome :=
  let listData := st.dataOf ref
  if listData.isEmpty then ⟨st, true, .nullV⟩
  else
    let index := toU32 i
    if listData.length ≤ index then ⟨st, true, .nullV⟩
    else
      let (ok, eTy', elemTy') := Ty.compare e.ty elemTy
      if ¬ ok then ⟨st, true, .nullV⟩
      else
        ⟨st.setData ref (listData.set index (Value.withTy e eTy')),
         false, .listV elemTy' ref⟩

/-- `BuiltinImplementations::rangeBuiltin`.  The start/end arguments are
`IntValue`s, whose type is the canonical `IntType`, so the two
`compare(..., IntType)` checks are evaluated exactly as in the source (they
always pass for `IntValue` arguments).  The two `unsigned < 0` comparisons
of the guard are kept verbatim; on `Nat` they are constantly false, as in
C++. -/
def rangeBuiltin (st : Store) (elemTy : Ty) (ref : Nat) (s e : Int) :
    Outcome :=
  let listData := st.dataOf ref
  if listData.isEmpty then ⟨st, true, .nullV⟩
  else if ¬ (Ty.compare (Value.intV s).ty Types.intT).1 then ⟨st, true, .nullV⟩
  else if ¬ (Ty.compare (Value.intV e).ty Types.intT).1 then ⟨st, true, .nullV⟩
  else
    let startIndex := toU32 s
    let endIndex := toU32 e
    if startIndex > endIndex ∨ startIndex ≥ listData.length ∨
        endIndex ≥ listData.length ∨ startIndex < 0 ∨ endIndex < 0 then
      ⟨st, true, .nullV⟩
    else
      let sub := (List.range (endIndex + 1 - startIndex)).map
        (fun k => listData.getD (startIndex + k) .nullV)
      let (st', ref') := st.alloc sub
      ⟨st', false, .listV elemTy ref'⟩

/-- `BuiltinImplementations::stringToCharListBuiltin`. -/
def stringToCharListBuiltin (st : Store) (s : List Nat) : Store × Value :=
  let listData := s.map Value.charV
  let (st', ref') := st.alloc listData
  (st', .listV Types.charT ref')

/-- `static_pointer_cast<Values::CharValue>(value)->data`: reading the
`data` member through the wrong class is undefined, modelled as `none`. -/
def charData? : Value → Option Nat
  | .charV c => some c
  | _ => none

/-- `BuiltinImplementations::charListToStringBuiltin`. -/
def charListToStringBuiltin (st : Store) (ref : Nat) : Option Value :=
  ((st.dataOf ref).mapM charData?).map Value.strV

end BuiltinImplementations

namespace Parser

/-- `Parser::parseImport`'s extraction of the source file name following an
already-erased `import` token: take the next token as the name, then as
long as the following token is `/`, append it and the next segment.  Every
`tokenStream.at(tokenIndex)` on an exhausted stream throws
`std::out_of_range` (the program aborts), modelled as `none`.  Returns the
assembled name and the remaining stream. -/
def parseImportName (stream : List String) : Option (String × List String) :=
  match stream with
  | [] => none
  | name :: rest => slashLoop name rest
where
  slashLoop (sourceFileName : String) :
      List String → Option (String × List String)
    | [] => none
    | tok :: rest =>
      if tok = "/" then
        match rest with
        | [] => none
        | seg :: rest' => slashLoop (sourceFileName ++ "/" ++ seg) rest'
      else some (sourceFileName, tok :: rest)

/-- `Parser::parseImport` for the import directive at the cursor: erase the
`import` and path tokens, then lex the referenced file.  `readFileTokens`
abstracts `Lexer::readFile` + `Lexer::makeTokenStream` (external per the
specification): it maps the assembled path to the token stream of the
file's contents (the empty list for an unreadable/empty file, for which
`parseImport` returns an empty stream). -/
def parseImport (readFileTokens : String → List String)
    (streamAfterImportTok : List String) :
    Option (List String × List String) :=
  (parseImportName streamAfterImportTok).map
    (fun p => (readFileTokens p.1, p.2))

/-- One scan of `Parser::preprocessImports`' inner `for` loop, starting at
the cursor with `rest` not yet examined.  On an `import` token the new
stream is spliced in at the cursor and `++tokenIndex` skips its first
token.  The fuel bounds the number of loop iterations: the inner loop can
itself grow the stream faster than the cursor advances.  Returns the
`importing` flag and the stream from the cursor on. -/
def scanImports (readFileTokens : String → List String) :
    Nat → List String → Option (Bool × List String)
  | _, [] => some (false, [])
  | 0, _ :: _ => none
  | fuel + 1, tok :: rest =>
    if tok = "import" then
      match parseImport readFileTokens rest with
      | none => none
      | some (newStream, rest₁) =>
        match newStream ++ rest₁ with
        | [] => some (true, [])
        | t :: rest₂ =>
          match scanImports readFileTokens fuel rest₂ with
          | none => none
          | some (_, s) => some (true, t :: s)
    else
      match scanImports readFileTokens fuel rest with
      | none => none
      | some (b, s) => some (b, tok :: s)

/-- `Parser::preprocessImports`: the do/while loop re-scanning the token
stream until a scan finds no `import` token.  The fuel bounds the number
of passes (and each pass's iterations); `none` means the available fuel
was exhausted — or an `std::out_of_range` abort occurred — before the
loop returned. -/
def preprocessImports (readFileTokens : String → List String) :
    Nat → List String → Option (List String)
  | 0, _ => none
  | fuel + 1, tokenStream =>
    match scanImports readFileTokens (fuel + 1) tokenStream with
    | none => none
    | some (false, tokenStream') => some tokenStream'
    | some (true, tokenStream') =>
      preprocessImports readFileTokens fuel tokenStream'

/-- The import pre-processing loop diverges on this input: no amount of
fuel makes it return. -/
def preprocessImportsDiverges (readFileTokens : String → List String)
    (tokenStream : List String) : Prop :=
  ∀ fuel, preprocessImports readFileTokens fuel tokenStream = none

end Parser

/-- Store cell index of a `ListValue` (0 for other values; used only to
read the cell of values known to be lists). -/
def Values.Value.refOf : Values.Value → Nat
  | .listV _ r => r
  | _ => 0

/-- A file system on which every import path resolves to a file whose
lexed tokens are `import A ;` — e.g. a file `A.bnt` containing
`import A`, the self-importing program. -/
def Parser.selfImportFile : String → List String :=
  fun _ => ["import", "A", ";"]

/-! ## Lemmas about `compare` -/

namespace Types

@[simp] theorem tag_prim (t : DataTypes) : (Ty.prim t).tag = t := rfl

@[simp] theorem tag_list (t : DataTypes) (e : Ty) : (Ty.list t e).tag = t := rfl

@[simp] theorem tag_tuple (t : DataTypes) (es : List Ty) :
    (Ty.tuple t es).tag = t := rfl

@[simp] theorem tag_func (t : DataTypes) (g : List String) (a : List Ty)
    (r : Ty) (b : Bool) : (Ty.func t g a r b).tag = t := rfl

@[simp] theorem tag_gen (t : DataTypes) (i : String) : (Ty.gen t i).tag = t := rfl

@[simp] theorem tag_tclass (t : DataTypes) (i : String)
    (f : List (String × Ty)) : (Ty.tclass t i f).tag = t := rfl

/-- A concrete type's tag is never `UNKNOWN`. -/
theorem concrete_tag_ne_unknown (t : Ty) (h : concrete t = true) :
    t.tag ≠ .UNKNOWN := by
  cases t with
  | prim tag =>
    simp [concrete] at h
    rcases h with h | h | h | h | h <;> subst h <;> simp
  | list tag e => simp [concrete] at h; obtain ⟨rfl, -⟩ := h; simp
  | tuple tag es => simp [concrete] at h; obtain ⟨rfl, -⟩ := h; simp
  | func tag g a r b =>
    simp [concrete] at h
    obtain ⟨⟨rfl, -⟩, -⟩ := h
    simp
  | gen tag i => simp [concrete] at h; subst h; simp
  | tclass tag i f => simp [concrete] at h; subst h; simp

mutual

/-- `Type::compare` is reflexive on concrete types (dispatching through
each subclass's override). -/
theorem compare_self (t : Ty) (h : concrete t = true) :
    (Ty.compare t t).1 = true := by
  match t with
  | .prim tag =>
    simp [concrete] at h
    rcases h with h | h | h | h | h <;> subst h <;> rfl
  | .gen tag i =>
    simp [concrete] at h
    subst h
    simp [Ty.compare, baseCompare]
  | .tclass tag i f =>
    simp [concrete] at h
    subst h
    simp [Ty.compare]
  | .list tag e =>
    simp [concrete] at h
    obtain ⟨rfl, he⟩ := h
    have hne := concrete_tag_ne_unknown e he
    have ih := compare_self e he
    rcases hc : Ty.compare e e with ⟨r, e₂, e₂'⟩
    rw [hc] at ih
    simp at ih
    subst ih
    simp [Ty.compare, hne, hc]
  | .tuple tag es =>
    simp [concrete] at h
    obtain ⟨rfl, hes⟩ := h
    have ih := tupleElemsCompare_self es hes
    rcases hc : tupleElemsCompare es es with ⟨r, es₂, es₂'⟩
    rw [hc] at ih
    simp at ih
    subst ih
    simp [Ty.compare, hc]
  | .func tag g a r b =>
    simp [concrete] at h
    obtain ⟨⟨rfl, ha⟩, hr⟩ := h
    have iha := funcArgsCompare_self a ha
    have ihr := compare_self r hr
    rcases hc : funcArgsCompare a a with ⟨ra, a₂, a₂'⟩
    rw [hc] at iha
    simp at iha
    subst iha
    rcases hcr : Ty.compare r r with ⟨rr, r₂, r₂'⟩
    rw [hcr] at ihr
    simp at ihr
    subst ihr
    simp [Ty.compare, hc, hcr]

/-- The tuple-element loop is reflexive on concrete element lists. -/
theorem tupleElemsCompare_self (l : List Ty) (h : concreteList l = true) :
    (tupleElemsCompare l l).1 = true := by
  match l with
  | [] => rfl
  | t :: ts =>
    simp [concreteList] at h
    obtain ⟨ht, hts⟩ := h
    have hne := concrete_tag_ne_unknown t ht
    have ih₁ := compare_self t ht
    have ih₂ := tupleElemsCompare_self ts hts
    rcases hc : Ty.compare t t with ⟨r, t₂, t₂'⟩
    rw [hc] at ih₁
    simp at ih₁
    subst ih₁
    rcases hcs : tupleElemsCompare ts ts with ⟨rs, ts₂, ts₂'⟩
    rw [hcs] at ih₂
    simp at ih₂
    subst ih₂
    simp [tupleElemsCompare, hne, hc, hcs]

/-- The function-argument loop is reflexive on concrete argument lists. -/
theorem funcArgsCompare_self (l : List Ty) (h : concreteList l = true) :
    (funcArgsCompare l l).1 = true := by
  match l with
  | [] => rfl
  | t :: ts =>
    simp [concreteList] at h
    obtain ⟨ht, hts⟩ := h
    have ih₁ := compare_self t ht
    have ih₂ := funcArgsCompare_self ts hts
    rcases hc : Ty.compare t t with ⟨r, t₂, t₂'⟩
    rw [hc] at ih₁
    simp at ih₁
    subst ih₁
    rcases hcs : funcArgsCompare ts ts with ⟨rs, ts₂, ts₂'⟩
    rw [hcs] at ih₂
    simp at ih₂
    subst ih₂
    simp [funcArgsCompare, hc, hcs]

end

end Types

/-! ## C1, C3, C4 -/

/-- C1: on integer operands, `/` with a zero right operand takes the fatal
runtime-error path (`printError` + thrown `RuntimeException`), but `%` with
a zero right operand does NOT: `doOperation`'s `MOD` branch has no zero
check and evaluates the C++ `%` operator, which is undefined behaviour (in
practice a hardware trap, with no error message or stack trace).  For
non-zero right operands both return the truncated quotient / remainder. -/
theorem claim_C1_div_mod_by_zero :
    Interpreter.doOperationInt .DIV 1 0 = .fatal ∧
    Interpreter.doOperationInt .MOD 1 0 = .ub ∧
    Interpreter.doOperationInt .MOD 1 0 ≠ .fatal ∧
    (∀ a b : Int, b ≠ 0 → ¬ (a = -2147483648 ∧ b = -1) →
      Interpreter.doOperationInt .DIV a b = .val (.intV (Int.tdiv a b)) ∧
      Interpreter.doOperationInt .MOD a b = .val (.intV (Int.tmod a b))) := by
  refine ⟨rfl, rfl, ?_, ?_⟩
  · intro h
    exact Interpreter.PrimOut.noConfusion h
  · intro a b hb hov
    simp [Interpreter.doOperationInt, hb, hov]

/-- C1 witness: the theorem applied at `7 / 2` and `7 % 2`. -/
theorem claim_C1_witness :
    (2 : Int) ≠ 0 ∧
    Interpreter.doOperationInt .DIV 7 2 = .val (.intV 3) ∧
    Interpreter.doOperationInt .MOD 7 2 = .val (.intV 1) := by
  have h := claim_C1_div_mod_by_zero.2.2.2 7 2 (by decide) (by decide)
  exact ⟨by decide, h.1, h.2⟩

/-- C3 counterexample: `GenType` has no `compare` override, so structural
comparison of `Generic("T")` with the differently-named `Generic("U")`
returns true, contradicting the claim that same-name is required. -/
theorem claim_C3_counterexample :
    Types.Ty.compareB (Types.genT "T") (Types.genT "U") = true := rfl

/-- C3 (amended): structural comparison of two unresolved `Generic` types
always succeeds, regardless of their names (the inherited base `compare`
looks only at the variant tags); a `Generic` compared against another type
succeeds exactly when that type is a `Generic` or an `Unknown` hole. -/
theorem claim_C3_generic_compare_ignores_name (a b : String) (t : Types.Ty) :
    Types.Ty.compareB (Types.genT a) (Types.genT b) = true ∧
    (Types.Ty.compareB (Types.genT a) t = true ↔
      (t.tag = .GEN ∨ t.tag = .UNKNOWN)) := by
  constructor
  · rfl
  · by_cases h : t.tag = Types.DataTypes.UNKNOWN
    · simp [Types.Ty.compareB, Types.Ty.compare, Types.baseCompare,
        Types.genT, h]
    · simp [Types.Ty.compareB, Types.Ty.compare, Types.baseCompare,
        Types.genT, h, eq_comm]

/-- C4: the unification primitive `TypeChecker::compare` is reflexive on
every concrete type (via each class's structural `compare`), and
`compare(Unknown, t)` succeeds, replacing the `Unknown` side with `t`. -/
theorem claim_C4_compare_reflexive_and_unknown :
    (∀ t : Types.Ty, Types.concrete t = true →
      (TypeChecker.compare t t).1 = true) ∧
    (∀ t : Types.Ty, Types.concrete t = true →
      TypeChecker.compare Types.unknownT t = (true, t, t)) := by
  constructor
  · intro t h
    have hne := Types.concrete_tag_ne_unknown t h
    have hr := Types.compare_self t h
    rcases hc : Types.Ty.compare t t with ⟨r, x, y⟩
    rw [hc] at hr
    simp at hr
    subst hr
    simp [TypeChecker.compare, hne, hc]
  · intro t _
    rfl

/-- C4 witness: the theorem applied at the concrete type
`List[Tuple[int, bool]]`. -/
theorem claim_C4_witness :
    Types.concrete (Types.listT (Types.Ty.tuple .TUPLE [Types.intT, Types.boolT])) = true ∧
    (TypeChecker.compare (Types.listT (Types.Ty.tuple .TUPLE [Types.intT, Types.boolT]))
      (Types.listT (Types.Ty.tuple .TUPLE [Types.intT, Types.boolT]))).1 = true ∧
    TypeChecker.compare Types.unknownT
        (Types.listT (Types.Ty.tuple .TUPLE [Types.intT, Types.boolT])) =
      (true, Types.listT (Types.Ty.tuple .TUPLE [Types.intT, Types.boolT]),
        Types.listT (Types.Ty.tuple .TUPLE [Types.intT, Types.boolT])) :=
  ⟨rfl,
   claim_C4_compare_reflexive_and_unknown.1
     (Types.listT (Types.Ty.tuple .TUPLE [Types.intT, Types.boolT])) rfl,
   claim_C4_compare_reflexive_and_unknown.2
     (Types.listT (Types.Ty.tuple .TUPLE [Types.intT, Types.boolT])) rfl⟩

/-! ## Store lemmas -/

namespace Values

theorem dataOf_alloc (st : Store) (d : List Value) :
    Store.dataOf (st ++ [d]) st.length = d := by
  induction st with
  | nil => rfl
  | cons x xs ih =>
    simp only [List.cons_append, List.length_cons, Store.dataOf,
      List.getD_cons_succ]
    exact ih

theorem dataOf_append_lt (st : Store) (d : List Value) (ref : Nat)
    (h : ref < st.length) :
    Store.dataOf (st ++ [d]) ref = Store.dataOf st ref := by
  induction st generalizing ref with
  | nil => simp at h
  | cons x xs ih =>
    cases ref with
    | zero => rfl
    | succ n =>
      simp at h
      simpa [Store.dataOf] using ih n (by omega)

theorem dataOf_setData_self (st : Store) (ref : Nat) (d : List Value)
    (h : ref < st.length) :
    Store.dataOf (Store.setData st ref d) ref = d := by
  induction st generalizing ref with
  | nil => simp at h
  | cons x xs ih =>
    cases ref with
    | zero => rfl
    | succ n =>
      simp at h
      simpa [Store.dataOf, Store.setData] using ih n (by omega)

end Values

/-! ## C7 -/

/-- The element-collecting loop of `rangeBuiltin` produces the
drop/take slice. -/
theorem map_range_getD (len s : Nat) (l : List Values.Value)
    (h : s + len ≤ l.length) :
    (List.range len).map (fun k => l.getD (s + k) .nullV) =
      (l.drop s).take len := by
  induction len with
  | zero => simp
  | succ n ih =>
    have h' : s + n ≤ l.length := by omega
    have hlt : s + n < l.length := by omega
    rw [List.range_succ, List.map_append, ih h', List.take_succ]
    simp only [List.map_cons, List.map_nil, List.getElem?_drop]
    have : l[s + n]? = some (l.getD (s + n) Values.Value.nullV) := by
      rw [List.getElem?_eq_getElem hlt]
      simp [List.getD_eq_getElem?_getD, List.getElem?_eq_getElem hlt]
    rw [this]
    rfl

/-- C7: `range(L, s, e)` reports an error and returns the Null sentinel
exactly when `s > e`, `s ≥ |L|`, `e ≥ |L|`, `s < 0`, `e < 0`, or `L` is
empty; otherwise it allocates and returns the inclusive sublist of `L`
from `s` through `e`.  The arguments are C++ 32-bit `int`s (hypotheses);
negative values flow through the `unsigned int` casts, where the wrapped
value always trips the bounds checks. -/
theorem claim_C7_range_spec (st : Values.Store) (elemTy : Types.Ty)
    (ref : Nat) (s e : Int)
    (hs1 : -2147483648 ≤ s) (hs2 : s < 2147483648)
    (he1 : -2147483648 ≤ e) (he2 : e < 2147483648)
    (hlen : (Values.Store.dataOf st ref).length < 2147483648) :
    ((s > e ∨ s ≥ (Values.Store.dataOf st ref).length ∨
        e ≥ (Values.Store.dataOf st ref).length ∨ s < 0 ∨ e < 0 ∨
        (Values.Store.dataOf st ref).length = 0) →
      BuiltinImplementations.rangeBuiltin st elemTy ref s e =
        ⟨st, true, .nullV⟩) ∧
    (¬ (s > e ∨ s ≥ (Values.Store.dataOf st ref).length ∨
        e ≥ (Values.Store.dataOf st ref).length ∨ s < 0 ∨ e < 0 ∨
        (Values.Store.dataOf st ref).length = 0) →
      BuiltinImplementations.rangeBuiltin st elemTy ref s e =
        ⟨st ++ [((Values.Store.dataOf st ref).drop s.toNat).take
                  (e.toNat + 1 - s.toNat)],
         false, .listV elemTy st.length⟩) := by
  have hcmp1 : (Types.Ty.compare (Values.Value.intV s).ty Types.intT).1 = true := rfl
  have hcmp2 : (Types.Ty.compare (Values.Value.intV e).ty Types.intT).1 = true := rfl
  constructor
  · intro hbad
    by_cases hemp : (Values.Store.dataOf st ref).isEmpty
    · simp [BuiltinImplementations.rangeBuiltin, hemp]
    · have hne : (Values.Store.dataOf st ref).length ≠ 0 := by
        simp only [List.isEmpty_iff_length_eq_zero] at hemp
        exact hemp
      have hguard : BuiltinImplementations.toU32 s > BuiltinImplementations.toU32 e ∨
          BuiltinImplementations.toU32 s ≥ (Values.Store.dataOf st ref).length ∨
          BuiltinImplementations.toU32 e ≥ (Values.Store.dataOf st ref).length ∨
          BuiltinImplementations.toU32 s < 0 ∨
          BuiltinImplementations.toU32 e < 0 := by
        simp only [BuiltinImplementations.toU32]
        omega
      simp [BuiltinImplementations.rangeBuiltin, hemp, hcmp1, hcmp2,
        hguard]
      simp only [BuiltinImplementations.toU32] at hguard ⊢
      omega
  · intro hbad
    push_neg at hbad
    obtain ⟨hse, hsl, hel, hs0, he0, hne⟩ := hbad
    have hemp : (Values.Store.dataOf st ref).isEmpty = false := by
      rcases h : Values.Store.dataOf st ref with - | ⟨x, xs⟩
      · rw [h] at hne; simp at hne
      · rfl
    have hS : BuiltinImplementations.toU32 s = s.toNat := by
      simp only [BuiltinImplementations.toU32]; omega
    have hE : BuiltinImplementations.toU32 e = e.toNat := by
      simp only [BuiltinImplementations.toU32]; omega
    have hslice := map_range_getD (e.toNat + 1 - s.toNat) s.toNat
      (Values.Store.dataOf st ref) (by omega)
    simp [BuiltinImplementations.rangeBuiltin, hemp, hcmp1, hcmp2,
      hS, hE, Values.Store.alloc]
    rw [if_neg (show ¬ (e < s ∧ 0 < s ∨
        (Values.Store.dataOf st ref).length ≤ s.toNat ∨
        (Values.Store.dataOf st ref).length ≤ e.toNat) by omega)]
    have hslice' := hslice
    simp only [List.getD_eq_getElem?_getD] at hslice'
    simp [hslice']

/-- C7 witness: the theorem applied to `range(List(1,2,3), 2, 1)` (the
boundary error from the specification) and to `range(List(1,2,3), 0, 1)`
(a successful inclusive slice). -/
theorem claim_C7_witness :
    BuiltinImplementations.rangeBuiltin
        [[Values.Value.intV 1, Values.Value.intV 2, Values.Value.intV 3]]
        Types.intT 0 2 1 =
      ⟨[[Values.Value.intV 1, Values.Value.intV 2, Values.Value.intV 3]],
       true, .nullV⟩ ∧
    BuiltinImplementations.rangeBuiltin
        [[Values.Value.intV 1, Values.Value.intV 2, Values.Value.intV 3]]
        Types.intT 0 0 1 =
      ⟨[[Values.Value.intV 1, Values.Value.intV 2, Values.Value.intV 3],
        [Values.Value.intV 1, Values.Value.intV 2]],
       false, .listV Types.intT 1⟩ := by
  constructor
  · exact (claim_C7_range_spec
      [[Values.Value.intV 1, Values.Value.intV 2, Values.Value.intV 3]]
      Types.intT 0 2 1 (by decide) (by decide) (by decide) (by decide)
      (by simp [Values.Store.dataOf])).1 (Or.inl (by norm_num))
  · have h := (claim_C7_range_spec
      [[Values.Value.intV 1, Values.Value.intV 2, Values.Value.intV 3]]
      Types.intT 0 0 1 (by decide) (by decide) (by decide) (by decide)
      (by simp [Values.Store.dataOf])).2 (by simp [Values.Store.dataOf])
    simpa [Values.Store.dataOf] using h

/-! ## C5 -/

/-- C5: the non-in-place list built-ins (insert, remove, replace,
pushFront, pushBack, head, tail, combine, range) never change the element
sequence stored in their input list's cell: they build the result in a
freshly allocated cell.  Last conjunct: the specification's concrete
scenario — `pushBack((1,2,3), 4)` yields a fresh `(1,2,3,4)` while the
input cell still holds `(1,2,3)`. -/
theorem claim_C5_non_in_place_preserve_input :
    (∀ (st : Values.Store) (elemTy : Types.Ty) (ref : Nat)
        (e : Values.Value) (i : Int) (out : BuiltinImplementations.Outcome),
      ref < st.length →
      BuiltinImplementations.insertBuiltin st elemTy ref e i = some out →
      Values.Store.dataOf out.store ref = Values.Store.dataOf st ref) ∧
    (∀ st elemTy ref i, ref < st.length →
      Values.Store.dataOf
          (BuiltinImplementations.removeBuiltin st elemTy ref i).store ref =
        Values.Store.dataOf st ref) ∧
    (∀ st elemTy ref e i, ref < st.length →
      Values.Store.dataOf
          (BuiltinImplementations.replaceBuiltin st elemTy ref e i).store ref =
        Values.Store.dataOf st ref) ∧
    (∀ st elemTy ref e, ref < st.length →
      Values.Store.dataOf
          (BuiltinImplementations.pushFrontBuiltin st elemTy ref e).store ref =
        Values.Store.dataOf st ref) ∧
    (∀ st elemTy ref e, ref < st.length →
      Values.Store.dataOf
          (BuiltinImplementations.pushBackBuiltin st elemTy ref e).store ref =
        Values.Store.dataOf st ref) ∧
    (∀ st elemTy ref, ref < st.length →
      Values.Store.dataOf
          (BuiltinImplementations.headBuiltin st elemTy ref).store ref =
        Values.Store.dataOf st ref) ∧
    (∀ st elemTy ref, ref < st.length →
      Values.Store.dataOf
          (BuiltinImplementations.tailBuiltin st elemTy ref).store ref =
        Values.Store.dataOf st ref) ∧
    (∀ st elemTy₁ ref₁ elemTy₂ ref₂, ref₁ < st.length → ref₂ < st.length →
      Values.Store.dataOf
          (BuiltinImplementations.combineBuiltin st elemTy₁ ref₁ elemTy₂ ref₂).store ref₁ =
        Values.Store.dataOf st ref₁ ∧
      Values.Store.dataOf
          (BuiltinImplementations.combineBuiltin st elemTy₁ ref₁ elemTy₂ ref₂).store ref₂ =
        Values.Store.dataOf st ref₂) ∧
    (∀ st elemTy ref s e, ref < st.length →
      Values.Store.dataOf
          (BuiltinImplementations.rangeBuiltin st elemTy ref s e).store ref =
        Values.Store.dataOf st ref) ∧
    (BuiltinImplementations.pushBackBuiltin
        [[Values.Value.intV 1, Values.Value.intV 2, Values.Value.intV 3]]
        Types.intT 0 (Values.Value.intV 4) =
      ⟨[[Values.Value.intV 1, Values.Value.intV 2, Values.Value.intV 3],
        [Values.Value.intV 1, Values.Value.intV 2, Values.Value.intV 3,
         Values.Value.intV 4]],
       false, .listV Types.intT 1⟩) := by
  refine ⟨?_, ?_, ?_, ?_, ?_, ?_, ?_, ?_, ?_, rfl⟩
  · intro st elemTy ref e i out h hsome
    unfold BuiltinImplementations.insertBuiltin at hsome
    simp only [Values.Store.alloc] at hsome
    split_ifs at hsome <;> simp at hsome <;> subst hsome <;>
      simp [Values.dataOf_append_lt st _ ref h]
  · intro st elemTy ref i h
    unfold BuiltinImplementations.removeBuiltin
    simp only [Values.Store.alloc]
    split_ifs <;> simp [Values.dataOf_append_lt st _ ref h]
  · intro st elemTy ref e i h
    unfold BuiltinImplementations.replaceBuiltin
    simp only [Values.Store.alloc]
    split_ifs <;> simp [Values.dataOf_append_lt st _ ref h]
  · intro st elemTy ref e h
    unfold BuiltinImplementations.pushFrontBuiltin
    simp only [Values.Store.alloc]
    split_ifs <;> simp [Values.dataOf_append_lt st _ ref h]
  · intro st elemTy ref e h
    unfold BuiltinImplementations.pushBackBuiltin
    simp only [Values.Store.alloc]
    split_ifs <;> simp [Values.dataOf_append_lt st _ ref h]
  · intro st elemTy ref h
    unfold BuiltinImplementations.headBuiltin
    simp only [Values.Store.alloc]
    split_ifs <;> simp [Values.dataOf_append_lt st _ ref h]
  · intro st elemTy ref h
    unfold BuiltinImplementations.tailBuiltin
    simp only [Values.Store.alloc]
    split_ifs <;> simp [Values.dataOf_append_lt st _ ref h]
  · intro st elemTy₁ ref₁ elemTy₂ ref₂ h₁ h₂
    unfold BuiltinImplementations.combineBuiltin
    simp only [Values.Store.alloc]
    split_ifs <;>
      exact ⟨by simp [Values.dataOf_append_lt st _ _ h₁],
             by simp [Values.dataOf_append_lt st _ _ h₂]⟩
  · intro st elemTy ref s e h
    unfold BuiltinImplementations.rangeBuiltin
    simp only [Values.Store.alloc]
    split_ifs <;> simp [Values.dataOf_append_lt st _ ref h]

/-- C5 witness: insert and combine applied on concrete lists, with the
hypotheses discharged. -/
theorem claim_C5_witness :
    (0 : Nat) < 1 ∧
    Values.Store.dataOf
        (BuiltinImplementations.removeBuiltin
          [[Values.Value.intV 1, Values.Value.intV 2]] Types.intT 0 0).store 0 =
      Values.Store.dataOf [[Values.Value.intV 1, Values.Value.intV 2]] 0 ∧
    Values.Store.dataOf
        (BuiltinImplementations.rangeBuiltin
          [[Values.Value.intV 1, Values.Value.intV 2]] Types.intT 0 0 1).store 0 =
      Values.Store.dataOf [[Values.Value.intV 1, Values.Value.intV 2]] 0 :=
  ⟨Nat.zero_lt_one,
   claim_C5_non_in_place_preserve_input.2.1
     [[Values.Value.intV 1, Values.Value.intV 2]] Types.intT 0 0
     Nat.zero_lt_one,
   claim_C5_non_in_place_preserve_input.2.2.2.2.2.2.2.2.1
     [[Values.Value.intV 1, Values.Value.intV 2]] Types.intT 0 0 1
     Nat.zero_lt_one⟩

/-! ## C6 -/

/-- C6: whenever neither variant reports an error, the in-place built-ins
insertInPlace / removeInPlace / replaceInPlace leave in the returned list
exactly the element sequence that the corresponding non-in-place builtin
returns on the same arguments. -/
theorem claim_C6_in_place_matches_non_in_place :
    (∀ (st : Values.Store) (elemTy : Types.Ty) (ref : Nat)
        (e : Values.Value) (i : Int)
        (out₁ out₂ : BuiltinImplementations.Outcome),
      ref < st.length →
      BuiltinImplementations.insertBuiltin st elemTy ref e i = some out₁ →
      BuiltinImplementations.insertInPlaceBuiltin st elemTy ref e i = some out₂ →
      out₁.err = false → out₂.err = false →
      Values.Store.dataOf out₂.store out₂.ret.refOf =
        Values.Store.dataOf out₁.store out₁.ret.refOf) ∧
    (∀ st elemTy ref i, ref < st.length →
      (BuiltinImplementations.removeBuiltin st elemTy ref i).err = false →
      (BuiltinImplementations.removeInPlaceBuiltin st elemTy ref i).err = false →
      Values.Store.dataOf
          (BuiltinImplementations.removeInPlaceBuiltin st elemTy ref i).store
          (BuiltinImplementations.removeInPlaceBuiltin st elemTy ref i).ret.refOf =
        Values.Store.dataOf
          (BuiltinImplementations.removeBuiltin st elemTy ref i).store
          (BuiltinImplementations.removeBuiltin st elemTy ref i).ret.refOf) ∧
    (∀ st elemTy ref e i, ref < st.length →
      (BuiltinImplementations.replaceBuiltin st elemTy ref e i).err = false →
      (BuiltinImplementations.replaceInPlaceBuiltin st elemTy ref e i).err = false →
      Values.Store.dataOf
          (BuiltinImplementations.replaceInPlaceBuiltin st elemTy ref e i).store
          (BuiltinImplementations.replaceInPlaceBuiltin st elemTy ref e i).ret.refOf =
        Values.Store.dataOf
          (BuiltinImplementations.replaceBuiltin st elemTy ref e i).store
          (BuiltinImplementations.replaceBuiltin st elemTy ref e i).ret.refOf) := by
  refine ⟨?_, ?_, ?_⟩
  · intro st elemTy ref e i out₁ out₂ h hsome₁ hsome₂ herr₁ herr₂
    unfold BuiltinImplementations.insertBuiltin at hsome₁
    unfold BuiltinImplementations.insertInPlaceBuiltin at hsome₂
    simp only [Values.Store.alloc] at hsome₁ hsome₂
    split_ifs at hsome₁ hsome₂ <;> simp at hsome₁ hsome₂ <;>
      subst hsome₁ <;> subst hsome₂ <;> simp_all [Values.Value.refOf,
        Values.dataOf_alloc, Values.dataOf_setData_self st ref _ h]
  · intro st elemTy ref i h herr₁ herr₂
    unfold BuiltinImplementations.removeBuiltin at herr₁ ⊢
    unfold BuiltinImplementations.removeInPlaceBuiltin at herr₂ ⊢
    simp only [Values.Store.alloc] at herr₁ herr₂ ⊢
    split_ifs at herr₁ herr₂ ⊢
    simp_all [Values.Value.refOf, Values.dataOf_alloc,
      Values.dataOf_setData_self st ref _ h]
  · intro st elemTy ref e i h herr₁ herr₂
    unfold BuiltinImplementations.replaceBuiltin at herr₁ ⊢
    unfold BuiltinImplementations.replaceInPlaceBuiltin at herr₂ ⊢
    simp only [Values.Store.alloc] at herr₁ herr₂ ⊢
    split_ifs at herr₁ herr₂ ⊢
    simp_all [Values.Value.refOf, Values.dataOf_alloc,
      Values.dataOf_setData_self st ref _ h]

/-- C6 witness: insert and insertInPlace applied at `(1,2)`, element 9,
index 0; both succeed and the returned cells hold the same sequence. -/
theorem claim_C6_witness :
    Values.Store.dataOf
        [[Values.Value.intV 9, Values.Value.intV 1, Values.Value.intV 2]] 0 =
      Values.Store.dataOf
        [[Values.Value.intV 1, Values.Value.intV 2],
         [Values.Value.intV 9, Values.Value.intV 1, Values.Value.intV 2]] 1 :=
  claim_C6_in_place_matches_non_in_place.1
    [[Values.Value.intV 1, Values.Value.intV 2]] Types.intT 0
    (Values.Value.intV 9) 0
    ⟨[[Values.Value.intV 1, Values.Value.intV 2],
      [Values.Value.intV 9, Values.Value.intV 1, Values.Value.intV 2]],
     false, .listV Types.intT 1⟩
    ⟨[[Values.Value.intV 9, Values.Value.intV 1, Values.Value.intV 2]],
     false, .listV Types.intT 0⟩
    Nat.zero_lt_one rfl rfl rfl rfl

/-! ## Environment lemmas (interpreter) -/

namespace Interpreter

theorem getName?_filter_self (env : Values.Environment) (n : String) :
    getName? (env.filter (fun p => p.1 ≠ n)) n = none := by
  induction env with
  | nil => rfl
  | cons p env ih =>
    rcases p with ⟨k, v⟩
    by_cases hp : k = n
    · rw [List.filter_cons_of_neg (by simp [hp])]
      exact ih
    · rw [List.filter_cons_of_pos (by simp [hp])]
      simp only [getName?, if_neg hp]
      exact ih

theorem getName?_filter_ne (env : Values.Environment) (n m : String)
    (h : m ≠ n) :
    getName? (env.filter (fun p => p.1 ≠ n)) m = getName? env m := by
  induction env with
  | nil => rfl
  | cons p env ih =>
    rcases p with ⟨k, v⟩
    by_cases hp : k = n
    · have hk : ¬ k = m := by rw [hp]; exact fun hh => h hh.symm
      rw [List.filter_cons_of_neg (by simp [hp])]
      simp only [getName?, if_neg hk]
      exact ih
    · rw [List.filter_cons_of_pos (by simp [hp])]
      by_cases hk : k = m
      · simp only [getName?, if_pos hk]
      · simp only [getName?, if_neg hk]
        exact ih

theorem getName?_eraseName_self (env : Values.Environment) (n : String) :
    getName? (eraseName env n) n = none :=
  getName?_filter_self env n

theorem getName?_eraseName_ne (env : Values.Environment) (n m : String)
    (h : m ≠ n) : getName? (eraseName env n) m = getName? env m :=
  getName?_filter_ne env n m h

theorem getName?_addName_self (env : Values.Environment) (n : String)
    (v : Values.Value) : getName? (addName env n v) n = some v := by
  simp [getName?, addName]

theorem getName?_addName_ne (env : Values.Environment) (n m : String)
    (v : Values.Value) (h : m ≠ n) :
    getName? (addName env n v) m = getName? env m := by
  have hn : ¬ n = m := fun hh => h hh.symm
  simp only [addName, getName?, if_neg hn]
  exact getName?_filter_ne env n m h

/-- Binding the parameters does not touch names outside the parameter
list. -/
theorem getName?_bindArgs (params : List String) (args : List Values.Value)
    (env : Values.Environment) (n : String) (h : n ∉ params) :
    getName?
        ((List.zip params args).foldl (fun e p => addName e p.1 p.2) env) n =
      getName? env n := by
  induction params generalizing args env with
  | nil => rfl
  | cons p ps ih =>
    cases args with
    | nil => rfl
    | cons a as =>
      simp only [List.mem_cons, not_or] at h
      rw [List.zip_cons_cons, List.foldl_cons, ih as _ h.2,
        getName?_addName_ne env p n a h.1]

/-- Overlaying the captured environment does not touch names it does not
bind. -/
theorem getName?_overlay (isB : String → Bool)
    (captured env : Values.Environment) (n : String)
    (h : getName? captured n = none) :
    getName?
        (captured.foldl
          (fun e p => if isB p.1 then e else addName e p.1 p.2) env) n =
      getName? env n := by
  induction captured generalizing env with
  | nil => rfl
  | cons p cap ih =>
    rcases p with ⟨k, v⟩
    have hp : ¬ k = n := by
      intro hh
      simp [getName?, hh] at h
    have hcap : getName? cap n = none := by
      simpa [getName?, hp] using h
    rw [List.foldl_cons]
    by_cases hb : isB k
    · simp only [hb, if_true]
      exact ih _ hcap
    · simp only [hb, Bool.false_eq_true, if_false]
      rw [ih _ hcap, getName?_addName_ne env k n v (fun hh => hp hh.symm)]

end Interpreter

/-! ## Environment lemmas (type checker) -/

namespace TypeChecker

theorem findName?_filter_self (env : TEnv) (n : String) :
    findName? (env.filter (fun p => p.1 ≠ n)) n = none := by
  induction env with
  | nil => rfl
  | cons p env ih =>
    rcases p with ⟨k, v⟩
    by_cases hp : k = n
    · rw [List.filter_cons_of_neg (by simp [hp])]
      exact ih
    · rw [List.filter_cons_of_pos (by simp [hp])]
      simp only [findName?, if_neg hp]
      exact ih

theorem findName?_filter_ne (env : TEnv) (n m : String) (h : m ≠ n) :
    findName? (env.filter (fun p => p.1 ≠ n)) m = findName? env m := by
  induction env with
  | nil => rfl
  | cons p env ih =>
    rcases p with ⟨k, v⟩
    by_cases hp : k = n
    · have hk : ¬ k = m := by rw [hp]; exact fun hh => h hh.symm
      rw [List.filter_cons_of_neg (by simp [hp])]
      simp only [findName?, if_neg hk]
      exact ih
    · rw [List.filter_cons_of_pos (by simp [hp])]
      by_cases hk : k = m
      · simp only [findName?, if_pos hk]
      · simp only [findName?, if_neg hk]
        exact ih

theorem findName?_addName_ne (env : TEnv) (n m : String) (t : Types.Ty)
    (h : m ≠ n) : findName? (addName env n t) m = findName? env m := by
  have hn : ¬ n = m := fun hh => h hh.symm
  simp only [addName, findName?, if_neg hn]
  exact findName?_filter_ne env n m h

/-- The generic-parameter loop of `evalProgram` binds only generic
names. -/
theorem findName?_genericsFold (gens : List String) (env : TEnv)
    (n : String) (h : n ∉ gens) :
    findName?
        (gens.foldl
          (fun env g =>
            match findName? env g with
            | some _ => env
            | none => addName env g (Types.genT g)) env) n =
      findName? env n := by
  induction gens generalizing env with
  | nil => rfl
  | cons g gs ih =>
    simp only [List.mem_cons, not_or] at h
    rw [List.foldl_cons]
    cases hf : findName? env g with
    | some t => simp only [hf]; exact ih _ h.2
    | none =>
      simp only [hf]
      rw [ih _ h.2, findName?_addName_ne env g n _ h.1]

/-- The parameter loop of `evalProgram` binds only parameter names. -/
theorem findName?_bindParameters (params : List (String × Types.Ty))
    (env env' : TEnv) (n : String) (h : n ∉ params.map (fun p => p.1))
    (hsome : functionInnerEnv.bindParameters env params = some env') :
    findName? env' n = findName? env n := by
  induction params generalizing env with
  | nil =>
    simp [functionInnerEnv.bindParameters] at hsome
    subst hsome
    rfl
  | cons p ps ih =>
    rcases p with ⟨pn, ty⟩
    simp only [List.map_cons, List.mem_cons, not_or] at h
    match ty, hsome with
    | .gen tg ident, hsome =>
      simp only [functionInnerEnv.bindParameters] at hsome
      cases hf : findName? env ident with
      | none => rw [hf] at hsome; cases hsome
      | some realType =>
        rw [hf] at hsome
        rw [ih _ h.2 hsome, findName?_addName_ne env pn n _ h.1]
    | .prim t, hsome =>
      simp only [functionInnerEnv.bindParameters] at hsome
      rw [ih _ h.2 hsome, findName?_addName_ne env pn n _ h.1]
    | .list t e, hsome =>
      simp only [functionInnerEnv.bindParameters] at hsome
      rw [ih _ h.2 hsome, findName?_addName_ne env pn n _ h.1]
    | .tuple t es, hsome =>
      simp only [functionInnerEnv.bindParameters] at hsome
      rw [ih _ h.2 hsome, findName?_addName_ne env pn n _ h.1]
    | .func t g a r b, hsome =>
      simp only [functionInnerEnv.bindParameters] at hsome
      rw [ih _ h.2 hsome, findName?_addName_ne env pn n _ h.1]
    | .tclass t i f, hsome =>
      simp only [functionInnerEnv.bindParameters] at hsome
      rw [ih _ h.2 hsome, findName?_addName_ne env pn n _ h.1]

end TypeChecker

/-! ## C2 -/

/-- C2: in `interpretProgram`, each non-builtin function declaration is
bound to a `FunctionValue` whose captured environment is the program
environment at declaration time with the function's own name erased — so a
closure never contains a binding for itself and agrees with the
declaration-time environment on every other name.  The type checker's
`evalProgram` maintains the same invariant for the inner environment
stored on the function's `FuncType` (outside the generic- and
value-parameter bindings it also installs).  Consequently, in the
environment `interpretApplication` builds for a call, a name absent from
the callee's captured environment and parameter list — in particular the
function's own name — still resolves exactly as in the live caller
environment. -/
theorem claim_C2_closure_capture_excludes_self :
    (∀ (isB : String → Bool) (env : Values.Environment)
        (f : Expressions.FunctionDef),
      isB f.name = false →
      Interpreter.getName? (Interpreter.bindFunction isB env f) f.name =
        some (Interpreter.makeFunctionValue isB env f) ∧
      Interpreter.getName?
          (Interpreter.capturedEnv (Interpreter.makeFunctionValue isB env f))
          f.name = none ∧
      (∀ g, g ≠ f.name →
        Interpreter.getName?
            (Interpreter.capturedEnv
              (Interpreter.makeFunctionValue isB env f)) g =
          Interpreter.getName? env g)) ∧
    (∀ (isB : String → Bool) (tenv : TypeChecker.TEnv)
        (f : Expressions.FunctionDef) (stored : TypeChecker.TEnv),
      isB f.name = false →
      TypeChecker.functionInnerEnv isB tenv f = some stored →
      (f.name ∉ f.genericParameters →
        f.name ∉ f.parameters.map (fun p => p.1) →
        TypeChecker.findName? stored f.name = none) ∧
      (∀ g, g ≠ f.name → g ∉ f.genericParameters →
        g ∉ f.parameters.map (fun p => p.1) →
        TypeChecker.findName? stored g = TypeChecker.findName? tenv g)) ∧
    (∀ (isB : String → Bool) (callerEnv : Values.Environment)
        (parameterNames : List String) (argVals : List Values.Value)
        (captured : Values.Environment) (n : String),
      Interpreter.getName? captured n = none → n ∉ parameterNames →
      Interpreter.getName?
          (Interpreter.buildFunctionEnvironment isB callerEnv parameterNames
            argVals captured) n =
        Interpreter.getName? callerEnv n) := by
  refine ⟨?_, ?_, ?_⟩
  · intro isB env f hb
    simp only [Interpreter.bindFunction, Interpreter.makeFunctionValue, hb,
      Bool.false_eq_true, if_false, Interpreter.capturedEnv]
    exact ⟨Interpreter.getName?_addName_self _ _ _,
      Interpreter.getName?_eraseName_self _ _,
      fun g hg => Interpreter.getName?_eraseName_ne _ _ _ hg⟩
  · intro isB tenv f stored hb hsome
    simp only [TypeChecker.functionInnerEnv, hb, Bool.false_eq_true,
      if_false] at hsome
    constructor
    · intro hg hp
      rw [TypeChecker.findName?_bindParameters f.parameters _ stored f.name
          hp hsome,
        TypeChecker.findName?_genericsFold f.genericParameters _ f.name hg]
      exact TypeChecker.findName?_filter_self tenv f.name
    · intro g hgf hgg hgp
      rw [TypeChecker.findName?_bindParameters f.parameters _ stored g
          hgp hsome,
        TypeChecker.findName?_genericsFold f.genericParameters _ g hgg]
      exact TypeChecker.findName?_filter_ne tenv f.name g hgf
  · intro isB callerEnv parameterNames argVals captured n hcap hpar
    unfold Interpreter.buildFunctionEnvironment
    rw [Interpreter.getName?_overlay isB captured _ n hcap,
      Interpreter.getName?_bindArgs parameterNames argVals callerEnv n hpar]

/-- C2 witness: the theorem applied to the concrete program environment
`x ↦ 1` (resp. `x : int`) and the function `func f[T](n: int) = ...`, and
to a call whose captured environment binds only `y`. -/
theorem claim_C2_witness :
    Interpreter.getName?
        (Interpreter.capturedEnv
          (Interpreter.makeFunctionValue (fun _ => false)
            [("x", Values.Value.intV 1)]
            ⟨"f", ["T"], [("n", Types.intT)], .endE Types.unknownT,
              Types.unknownT⟩)) "f" = none ∧
    TypeChecker.findName?
        [("n", Types.intT), ("T", Types.genT "T"), ("x", Types.intT)] "f" =
      none ∧
    TypeChecker.findName?
        [("n", Types.intT), ("T", Types.genT "T"), ("x", Types.intT)] "x" =
      TypeChecker.findName? [("x", Types.intT)] "x" ∧
    Interpreter.getName?
        (Interpreter.buildFunctionEnvironment (fun _ => false)
          [("x", Values.Value.intV 1)] ["n"] [Values.Value.intV 5]
          [("y", Values.Value.intV 2)]) "f" =
      Interpreter.getName? [("x", Values.Value.intV 1)] "f" := by
  refine ⟨?_, ?_, ?_, ?_⟩
  · exact (claim_C2_closure_capture_excludes_self.1 (fun _ => false)
      [("x", Values.Value.intV 1)]
      ⟨"f", ["T"], [("n", Types.intT)], .endE Types.unknownT,
        Types.unknownT⟩ rfl).2.1
  · exact (claim_C2_closure_capture_excludes_self.2.1 (fun _ => false)
      [("x", Types.intT)]
      ⟨"f", ["T"], [("n", Types.intT)], .endE Types.unknownT,
        Types.unknownT⟩
      [("n", Types.intT), ("T", Types.genT "T"), ("x", Types.intT)]
      rfl rfl).1 (by decide) (by decide)
  · exact (claim_C2_closure_capture_excludes_self.2.1 (fun _ => false)
      [("x", Types.intT)]
      ⟨"f", ["T"], [("n", Types.intT)], .endE Types.unknownT,
        Types.unknownT⟩
      [("n", Types.intT), ("T", Types.genT "T"), ("x", Types.intT)]
      rfl rfl).2 "x" (by decide) (by decide) (by decide)
  · exact claim_C2_closure_capture_excludes_self.2.2 (fun _ => false)
      [("x", Values.Value.intV 1)] ["n"] [Values.Value.intV 5]
      [("y", Values.Value.intV 2)] "f" rfl (by decide)

/-! ## C8 -/

/-- C8: `evalBranch` first checks the condition against `Bool`, then the
else branch against the expected type, and finally the then branch against
the type inferred for the else branch (first conjunct: the checks happen
in exactly that order with exactly those expected types, including their
entries in the instrumentation trace).  Second conjunct: consequently two
literal arms are forced to agree — checking `if (c) <ta-literal> else
<tb-literal>` against an unknown expected type raises the error latch
exactly when the two concrete literal tags differ.  Third conjunct: in
that run the then arm's recorded expected type is the else arm's inferred
type. -/
theorem claim_C8_branch_checks_else_then_then :
    (∀ (rty : Types.Ty) (condition ifBranch elseBranch : Expressions.Expr)
        (env : TypeChecker.TEnv) (expectedType : Types.Ty)
        (s : TypeChecker.TCState),
      TypeChecker.eval (.branch rty condition ifBranch elseBranch) env
          expectedType s =
        (let s₀ : TypeChecker.TCState :=
          { s with trace := s.trace ++
            [(.branch rty condition ifBranch elseBranch, expectedType)] }
         let r₁ := TypeChecker.eval condition env Types.boolT s₀
         let r₂ := TypeChecker.eval elseBranch env expectedType r₁.2.2
         let r₃ := TypeChecker.eval ifBranch env r₂.1.rty r₂.2.2
         (r₃.1, r₂.2.1, r₃.2.2))) ∧
    (∀ (rty : Types.Ty) (ta tb : Types.DataTypes)
        (d₁ d₂ dc : Expressions.LitData) (env : TypeChecker.TEnv)
        (tr : List (Expressions.Expr × Types.Ty)),
      ta ≠ .UNKNOWN → tb ≠ .UNKNOWN →
      (TypeChecker.eval
          (.branch rty (.lit Types.boolT dc) (.lit (.prim ta) d₁)
            (.lit (.prim tb) d₂)) env Types.unknownT ⟨false, tr⟩).2.2.err =
        decide (ta ≠ tb) ∧
      (TypeChecker.eval
          (.branch rty (.lit Types.boolT dc) (.lit (.prim ta) d₁)
            (.lit (.prim tb) d₂)) env Types.unknownT ⟨false, tr⟩).2.2.trace =
        tr ++
          [(.branch rty (.lit Types.boolT dc) (.lit (.prim ta) d₁)
              (.lit (.prim tb) d₂), Types.unknownT),
           (.lit Types.boolT dc, Types.boolT),
           (.lit (.prim tb) d₂, Types.unknownT),
           (.lit (.prim ta) d₁, .prim tb)]) := by
  constructor
  · intro rty condition ifBranch elseBranch env expectedType s
    rfl
  · intro rty ta tb d₁ d₂ dc env tr hta htb
    by_cases hab : ta = tb <;>
      simp [TypeChecker.eval, TypeChecker.compare, Types.Ty.compare,
        Types.baseCompare, Types.boolT, Types.unknownT, Expressions.Expr.rty,
        hta, htb, hab]

/-- C8 witness: the theorem applied with `int` / `string` arms (mismatch:
the latch fires) and with `int` / `int` arms (agreement: it does not). -/
theorem claim_C8_witness :
    (Types.DataTypes.INT ≠ Types.DataTypes.UNKNOWN) ∧
    (TypeChecker.eval
        (.branch Types.unknownT (.lit Types.boolT .nullL)
          (.lit (.prim .INT) (.intL 1)) (.lit (.prim .STRING) (.strL [])))
        [] Types.unknownT ⟨false, []⟩).2.2.err = true ∧
    (TypeChecker.eval
        (.branch Types.unknownT (.lit Types.boolT .nullL)
          (.lit (.prim .INT) (.intL 1)) (.lit (.prim .INT) (.intL 2)))
        [] Types.unknownT ⟨false, []⟩).2.2.err = false := by
  refine ⟨by decide, ?_, ?_⟩
  · exact ((claim_C8_branch_checks_else_then_then.2 Types.unknownT .INT
      .STRING (.intL 1) (.strL []) .nullL [] [] (by decide) (by decide)).1)
  · exact ((claim_C8_branch_checks_else_then_then.2 Types.unknownT .INT
      .INT (.intL 1) (.intL 2) .nullL [] [] (by decide) (by decide)).1)

/-! ## C9 -/

namespace Parser

/-- A scan that reports `importing = false` left the stream untouched and
saw no `import` token. -/
theorem scanImports_false (fs : String → List String) :
    ∀ (fuel : Nat) (l s : List String),
      scanImports fs fuel l = some (false, s) →
      s = l ∧ "import" ∉ l := by
  intro fuel
  induction fuel with
  | zero =>
    intro l s hscan
    cases l with
    | nil =>
      simp [scanImports] at hscan
      simp [hscan]
    | cons tok rest => simp [scanImports] at hscan
  | succ n ih =>
    intro l s hscan
    cases l with
    | nil =>
      simp [scanImports] at hscan
      simp [hscan]
    | cons tok rest =>
      by_cases ht : tok = "import"
      · rw [scanImports, if_pos ht] at hscan
        cases hpi : parseImport fs rest with
        | none =>
          simp only [hpi] at hscan
          exact Option.noConfusion hscan
        | some p =>
          rcases p with ⟨newStream, rest₁⟩
          simp only [hpi] at hscan
          cases hcat : newStream ++ rest₁ with
          | nil =>
            rw [hcat] at hscan
            simp at hscan
          | cons t rest₂ =>
            rw [hcat] at hscan
            cases hrec : scanImports fs n rest₂ with
            | none =>
              simp only [hrec] at hscan
              exact Option.noConfusion hscan
            | some q => simp only [hrec] at hscan; simp at hscan
      · rw [scanImports, if_neg ht] at hscan
        cases hrec : scanImports fs n rest with
        | none =>
          simp only [hrec] at hscan
          exact Option.noConfusion hscan
        | some q =>
          rcases q with ⟨b, s₁⟩
          simp only [hrec] at hscan
          simp at hscan
          obtain ⟨rfl, rfl⟩ := hscan
          obtain ⟨rfl, hni⟩ := ih rest s₁ hrec
          exact ⟨rfl, by simp [hni, ht, Ne.symm]⟩

/-- Partial correctness of the do/while loop: when it returns, no
`import` token remains. -/
theorem preprocessImports_no_import (fs : String → List String) :
    ∀ (fuel : Nat) (l out : List String),
      preprocessImports fs fuel l = some out → "import" ∉ out := by
  intro fuel
  induction fuel with
  | zero => intro l out h; cases h
  | succ n ih =>
    intro l out h
    rw [preprocessImports] at h
    cases hscan : scanImports fs (n + 1) l with
    | none => rw [hscan] at h; cases h
    | some p =>
      rcases p with ⟨b, s⟩
      cases b with
      | false =>
        have hsf := scanImports_false fs (n + 1) l s hscan
        simp only [hscan] at h
        simp at h
        rw [← h, hsf.1]
        exact hsf.2
      | true =>
        simp only [hscan] at h
        exact ih s out h

/-- A scan of an import-free stream either runs out of fuel or returns the
stream unchanged with the flag down. -/
theorem scanImports_nonimport (fs : String → List String) :
    ∀ (fuel : Nat) (l : List String), (∀ t ∈ l, t ≠ "import") →
      scanImports fs fuel l = none ∨
      scanImports fs fuel l = some (false, l) := by
  intro fuel
  induction fuel with
  | zero =>
    intro l h
    cases l with
    | nil => right; rfl
    | cons tok rest => left; rfl
  | succ n ih =>
    intro l h
    cases l with
    | nil => right; rfl
    | cons tok rest =>
      have ht : tok ≠ "import" := h tok (List.mem_cons_self tok rest)
      have hrest : ∀ t ∈ rest, t ≠ "import" :=
        fun t htm => h t (List.mem_cons_of_mem tok htm)
      rw [scanImports, if_neg ht]
      rcases ih rest hrest with hrec | hrec
      · left; rw [hrec]
      · right; rw [hrec]

/-- One pass over the self-importing stream either runs out of fuel or
grows the stream by one token, keeping the leading `import` directive. -/
theorem scanImports_selfImport (fuel k : Nat) :
    scanImports selfImportFile fuel
        ("import" :: "A" :: ";" :: List.replicate k ";") = none ∨
    scanImports selfImportFile fuel
        ("import" :: "A" :: ";" :: List.replicate k ";") =
      some (true, "import" :: "A" :: ";" :: ";" :: List.replicate k ";") := by
  cases fuel with
  | zero => left; rfl
  | succ n =>
    have hname : parseImport selfImportFile
        ("A" :: ";" :: List.replicate k ";") =
        some (["import", "A", ";"], ";" :: List.replicate k ";") := by
      rw [parseImport, parseImportName, parseImportName.slashLoop.eq_def]
      dsimp only
      rw [if_neg (by decide : ¬ (";" : String) = "/")]
      rfl
    rw [scanImports, if_pos rfl]
    simp only [hname, List.cons_append, List.nil_append]
    have hrest : ∀ t ∈ ("A" :: ";" :: ";" :: List.replicate k ";"), t ≠ "import" := by
      intro t htm
      rcases List.mem_cons.1 htm with rfl | htm'
      · decide
      rcases List.mem_cons.1 htm' with rfl | htm''
      · decide
      rcases List.mem_cons.1 htm'' with rfl | htm'''
      · decide
      · rw [List.eq_of_mem_replicate htm''']
        decide
    rcases scanImports_nonimport selfImportFile n
        ("A" :: ";" :: ";" :: List.replicate k ";") hrest with hrec | hrec
    · left; rw [hrec]
    · right; rw [hrec]

/-- The do/while loop never returns on the self-importing stream. -/
theorem preprocessImports_selfImport_diverges :
    ∀ (fuel k : Nat),
      preprocessImports selfImportFile fuel
        ("import" :: "A" :: ";" :: List.replicate k ";") = none := by
  intro fuel
  induction fuel with
  | zero => intro k; rfl
  | succ n ih =>
    intro k
    rw [preprocessImports]
    rcases scanImports_selfImport (n + 1) k with hscan | hscan
    · rw [hscan]
    · rw [hscan]
      have := ih (k + 1)
      rw [List.replicate_succ] at this
      exact this

end Parser

/-- C9 counterexample: on the lexed stream of a program whose first
directive imports a file that imports itself (`selfImportFile`: every path
resolves to the tokens of `A.bnt` containing the text `import A`), the
pre-processing loop never reaches a fixed point — no amount of fuel makes
it return — refuting the claim that the loop terminates on every input
token stream. -/
theorem claim_C9_counterexample :
    Parser.preprocessImportsDiverges Parser.selfImportFile
      ["import", "A", ";"] := by
  intro fuel
  exact Parser.preprocessImports_selfImport_diverges fuel 0

/-- C9 (amended): the import pre-processing loop does not terminate on
every input (a self-importing file makes it re-scan forever), but whenever
it does return, its fixed point is genuine: no token with text `import`
remains anywhere in the resulting token stream, including tokens brought
in transitively by imported files. -/
theorem claim_C9_no_import_after_return (fs : String → List String)
    (fuel : Nat) (stream out : List String)
    (h : Parser.preprocessImports fs fuel stream = some out) :
    "import" ∉ out :=
  Parser.preprocessImports_no_import fs fuel stream out h

/-- C9 witness: a two-token import-free program passes through the loop
unchanged (fuel 2: one scan plus the fixed-point check), with no `import`
token in the result. -/
theorem claim_C9_witness :
    Parser.preprocessImports (fun _ => []) 2 ["func", "x"] =
      some ["func", "x"] ∧
    "import" ∉ (["func", "x"] : List String) :=
  ⟨rfl, claim_C9_no_import_after_return (fun _ => []) 2 ["func", "x"]
    ["func", "x"] rfl⟩

/-! ## C10 -/

/-- Mapping `charData?` over a list of `charV` values recovers the codes. -/
theorem mapM_charData_map_charV (s : List Nat) :
    (s.map Values.Value.charV).mapM BuiltinImplementations.charData? = some s := by
  induction s with
  | nil => rfl
  | cons c cs ih =>
    rw [List.map_cons, List.mapM_cons, ih]
    rfl

/-- C10: the conversion built-ins round-trip.  `charListToString` after
`stringToCharList` returns the original string; `stringToCharList` after
`charListToString` on a list of char values rebuilds a char list with the
same characters in the same order. -/
theorem claim_C10_conversion_roundtrip :
    (∀ (st : Values.Store) (s : List Nat),
      BuiltinImplementations.charListToStringBuiltin
          (BuiltinImplementations.stringToCharListBuiltin st s).1
          (BuiltinImplementations.stringToCharListBuiltin st s).2.refOf =
        some (.strV s)) ∧
    (∀ (st : Values.Store) (ref : Nat) (codes : List Nat),
      Values.Store.dataOf st ref = codes.map Values.Value.charV →
      BuiltinImplementations.charListToStringBuiltin st ref =
          some (.strV codes) ∧
      (BuiltinImplementations.stringToCharListBuiltin st codes).1.dataOf
          (BuiltinImplementations.stringToCharListBuiltin st codes).2.refOf =
        Values.Store.dataOf st ref) := by
  constructor
  · intro st s
    show BuiltinImplementations.charListToStringBuiltin
      (st ++ [s.map Values.Value.charV]) st.length = some (.strV s)
    unfold BuiltinImplementations.charListToStringBuiltin
    rw [Values.dataOf_alloc, mapM_charData_map_charV]
    rfl
  · intro st ref codes h
    constructor
    · unfold BuiltinImplementations.charListToStringBuiltin
      rw [h, mapM_charData_map_charV]
      rfl
    · show Values.Store.dataOf (st ++ [codes.map Values.Value.charV])
          st.length = Values.Store.dataOf st ref
      rw [Values.dataOf_alloc, h]

/-- C10 witness: the theorem applied to the string "hi" (codes 104, 105)
and to a two-element char list living in cell 0 of a store. -/
theorem claim_C10_witness :
    BuiltinImplementations.charListToStringBuiltin
        (BuiltinImplementations.stringToCharListBuiltin [] [104, 105]).1
        (BuiltinImplementations.stringToCharListBuiltin [] [104, 105]).2.refOf =
      some (.strV [104, 105]) ∧
    Values.Store.dataOf [[Values.Value.charV 104, Values.Value.charV 105]] 0 =
      ([104, 105] : List Nat).map Values.Value.charV ∧
    BuiltinImplementations.charListToStringBuiltin
        [[Values.Value.charV 104, Values.Value.charV 105]] 0 =
      some (.strV [104, 105]) :=
  ⟨claim_C10_conversion_roundtrip.1 [] [104, 105], rfl,
   (claim_C10_conversion_roundtrip.2
     [[Values.Value.charV 104, Values.Value.charV 105]] 0 [104, 105] rfl).1⟩
